import Mathlib

/-!
Shallow embedding of the secret-social-recovery pallet (`src/src/lib.rs`).

Account identifiers are byte strings (`List Nat`); in the reference test
runtime (`src/src/mock.rs`) `AccountId = sr25519::Public`, i.e. 32 raw
bytes, but the pallet itself is generic and only ever treats an account id
as its byte representation (`approver.as_ref()`).  Block numbers are `u64`
in the reference runtime; we model them as `Nat` and make the `checked_add`
overflow bound (`2^64 - 1`) explicit.  Storage maps are association lists
with overwrite-on-insert semantics, mirroring the host key-value store.

The merkle-proof and sr25519 collaborators are external crates (the spec
explicitly excludes them from the core): they are embedded by their
idealized contracts — a proof validates against exactly the root it was
generated from, and a signature verifies under exactly the public key that
produced it over exactly the signed message.
-/

/-- Account identifier: the byte representation of a `T::AccountId`. -/
abbrev AccountId : Type := List Nat

/-- Upper bound of the reference runtime's `BlockNumber = u64`. -/
def u64Max : Nat := 2 ^ 64 - 1

/-- Model of `CheckedAdd::checked_add` on `u64` block numbers: `none` on
arithmetic overflow. -/
def checked_add (a b : Nat) : Option Nat :=
  if a + b ≤ u64Max then some (a + b) else none

/-- Mirror of `RecoveryConfig<BlockNumber>` from `lib.rs`. -/
structure RecoveryConfig where
  delay_period : Nat
  friends_merkle_root : List Nat
  threshold : Nat
  deriving Repr, DecidableEq

/-- Mirror of `ActiveRecovery<BlockNumber, AccountId>` from `lib.rs`. -/
structure ActiveRecovery where
  created : Nat
  approved_friends : List AccountId
  deriving Repr, DecidableEq

/-- Association-list storage map with overwrite-on-insert semantics. -/
def mapLookup {α β : Type} [DecidableEq α] (m : List (α × β)) (k : α) : Option β :=
  match m with
  | [] => none
  | (k2, v) :: rest => if k = k2 then some v else mapLookup rest k

/-- Insert (or overwrite) a key in an association-list storage map. -/
def mapInsert {α β : Type} [DecidableEq α] (m : List (α × β)) (k : α) (v : β) :
    List (α × β) :=
  (k, v) :: m.filter (fun p => decide (p.1 ≠ k))

/-- The pallet's persistent storage (`decl_storage!`) together with the two
pieces of host state it consults: the current block number and the system
module's account reference counts (touched by `inc_ref`). -/
structure State where
  recoverable : List (AccountId × RecoveryConfig)
  active_recoveries : List ((AccountId × AccountId) × ActiveRecovery)
  proxy : List (AccountId × AccountId)
  refs : List (AccountId × Nat)
  block_number : Nat
  deriving Repr, DecidableEq

/-- Dispatch origins of the host ledger (`RawOrigin`). -/
inductive Origin where
  | root
  | signed (who : AccountId)
  | nobody
  deriving Repr, DecidableEq

/-- The pallet's error enum (`decl_error!`), plus the host's `BadOrigin`
returned by `ensure_root` / `ensure_signed`. -/
inductive Error where
  | BadOrigin
  | NoneValue
  | StorageOverflow
  | NotAllowed
  | ZeroThreshold
  | AlreadyRecoverable
  | AlreadyStarted
  | NotRecoverable
  | SignatureInvalid
  | MerkleProofInvalid
  | NotStarted
  | AlreadyApproved
  | InconsistentProofValue
  | AlreadyProxied
  | Overflow
  | DelayPeriod
  | UnderThreshold
  deriving Repr, DecidableEq

/-- Outcome of one dispatchable call.  An error carries the storage state at
the moment the call aborted (the host applies writes immediately, so a
hypothetical write-then-fail sequence would persist its writes).  `panic`
is reached when the Rust code unwinds (`expect`). -/
inductive OpResult where
  | ok (s : State)
  | err (e : Error) (s : State)
  | panic
  deriving Repr, DecidableEq

/-- Idealized sr25519 signature value: it records which public key produced
it and over which message bytes. -/
structure Signature where
  signer_public : List Nat
  message : List Nat
  deriving Repr, DecidableEq

/-- Idealized contract of the sr25519 collaborator's
`Pair::verify(signature, message, public)`: true exactly when `signature`
was produced by the key `public` over exactly `message`. -/
def sr25519_verify (sig : Signature) (message : List Nat) (public : List Nat) : Bool :=
  decide (sig.signer_public = public ∧ sig.message = message)

/-- Idealized merkle inclusion proof (`merkle::Proof<T::AccountId>`): it
carries the claimed member (`value`, read by the pallet) and the root of
the tree it was generated from. -/
structure Proof where
  value : AccountId
  committed_root : List Nat
  deriving Repr, DecidableEq

/-- Idealized contract of `Proof::validate(root)`: a proof validates against
exactly the root it was generated from (collision resistance). -/
def Proof.validate (p : Proof) (root : List Nat) : Bool :=
  decide (p.committed_root = root)

/-- Model of `approver.as_ref().try_into() : Result<[u8; 32], _>`: the
conversion of an account id's bytes into an sr25519 public key succeeds
exactly when there are 32 of them. -/
def to_public (a : AccountId) : Option (List Nat) :=
  if a.length = 32 then some a else none

/-- Model of `slice::binary_search` by its contract: on a sorted vector it
returns `.ok i` with the element at position `i` equal to the probe, or
`.error i` with `i` the position where the probe could be inserted to keep
the vector sorted. -/
def binary_search (xs : List AccountId) (x : AccountId) : Except Nat Nat :=
  match xs with
  | [] => .error 0
  | y :: ys =>
    if y < x then
      match binary_search ys x with
      | .ok i => .ok (i + 1)
      | .error i => .error (i + 1)
    else if y = x then .ok 0
    else .error 0

/-- Model of `system::Module::inc_ref(who)`: bump the account's reference
count. -/
def inc_ref (refs : List (AccountId × Nat)) (who : AccountId) : List (AccountId × Nat) :=
  mapInsert refs who ((mapLookup refs who).getD 0 + 1)

/-- Opaque forwarded action (`Box<<T as Trait>::Call>`): the core never
interprets it, so it is modelled as its dispatch outcome as a function of
the origin it is dispatched under (`none` = `Ok(())`). -/
structure CallAction where
  outcome : Origin → Option Error

/-- Embedding of `fn set_recovered(origin, lost, rescuer)`. -/
def set_recovered (origin : Origin) (lost rescuer : AccountId) (s : State) : OpResult :=
  match origin with
  | .root => .ok { s with proxy := mapInsert s.proxy rescuer lost }
  | _ => .err .BadOrigin s

/-- Embedding of `fn as_recovered(origin, lost, call)`.  The forwarded call
executes outside this pallet's storage; its outcome is propagated
unchanged. -/
def as_recovered (origin : Origin) (lost : AccountId) (call : CallAction) (s : State) :
    OpResult :=
  match origin with
  | .signed rescuer =>
    match mapLookup s.proxy rescuer with
    | none => .err .NotAllowed s
    | some target =>
      if target = lost then
        match call.outcome (.signed lost) with
        | none => .ok s
        | some e => .err e s
      else .err .NotAllowed s
  | _ => .err .BadOrigin s

/-- Embedding of `fn create_recovery(origin, friends_merkle_root, threshold,
delay_period)`. -/
def create_recovery (origin : Origin) (friends_merkle_root : List Nat)
    (threshold : Nat) (delay_period : Nat) (s : State) : OpResult :=
  match origin with
  | .signed who =>
    if (mapLookup s.recoverable who).isSome then .err .AlreadyRecoverable s
    else if 1 ≤ threshold then
      let recovery_config : RecoveryConfig := ⟨delay_period, friends_merkle_root, threshold⟩
      .ok { s with recoverable := mapInsert s.recoverable who recovery_config }
    else .err .ZeroThreshold s
  | _ => .err .BadOrigin s

/-- Embedding of `fn initiate_recovery(origin, lost)`. -/
def initiate_recovery (origin : Origin) (lost : AccountId) (s : State) : OpResult :=
  match origin with
  | .signed rescuer =>
    if (mapLookup s.recoverable lost).isSome then
      if (mapLookup s.active_recoveries (lost, rescuer)).isSome then
        .err .AlreadyStarted s
      else
        let recovery_status : ActiveRecovery := ⟨s.block_number, []⟩
        .ok { s with active_recoveries := mapInsert s.active_recoveries (lost, rescuer) recovery_status }
    else .err .NotRecoverable s
  | _ => .err .BadOrigin s

/-- Embedding of `fn approve_recovery(origin, lost, rescuer, signature,
proof)`.  Two quirks of the source are preserved: the result of
`ensure_signed(origin)` is bound to `_` and discarded (no `?`), so the
origin is never actually checked; and the conversion of the approver's
bytes to a public key uses `.expect("")`, which panics when the claimed
approver is not 32 bytes long. -/
def approve_recovery (origin : Origin) (lost rescuer : AccountId)
    (signature : Signature) (proof : Proof) (s : State) : OpResult :=
  match origin, mapLookup s.recoverable lost with
  | _, none => .err .NotRecoverable s
  | _, some recovery_config =>
    let approver := proof.value
    match to_public approver with
    | none => .panic
    | some approver_public =>
      if sr25519_verify signature rescuer approver_public then
        if proof.validate recovery_config.friends_merkle_root then
          match mapLookup s.active_recoveries (lost, rescuer) with
          | none => .err .NotStarted s
          | some active_recovery =>
            match binary_search active_recovery.approved_friends approver with
            | .ok _ => .err .AlreadyApproved s
            | .error pos =>
              let updated : ActiveRecovery :=
                ⟨active_recovery.created, active_recovery.approved_friends.insertIdx pos approver⟩
              .ok { s with active_recoveries := mapInsert s.active_recoveries (lost, rescuer) updated }
        else .err .MerkleProofInvalid s
      else .err .SignatureInvalid s

/-- Embedding of `fn claim_recovery(origin, lost)`. -/
def claim_recovery (origin : Origin) (lost : AccountId) (s : State) : OpResult :=
  match origin with
  | .signed rescuer =>
    match mapLookup s.recoverable lost with
    | none => .err .NotRecoverable s
    | some recovery_config =>
      match mapLookup s.active_recoveries (lost, rescuer) with
      | none => .err .NotStarted s
      | some active_recovery =>
        if (mapLookup s.proxy rescuer).isSome then .err .AlreadyProxied s
        else
          match checked_add active_recovery.created recovery_config.delay_period with
          | none => .err .Overflow s
          | some recoverable_block_number =>
            if recoverable_block_number ≤ s.block_number then
              if recovery_config.threshold ≤ active_recovery.approved_friends.length then
                .ok { s with
                  proxy := mapInsert s.proxy rescuer lost,
                  refs := inc_ref s.refs rescuer }
              else .err .UnderThreshold s
            else .err .DelayPeriod s
  | _ => .err .BadOrigin s

/-- Genesis state: empty storage. -/
def initState : State := ⟨[], [], [], [], 1⟩

/-- One host-serialized protocol step: a successful dispatch of one of the
pallet's calls, or the block number advancing (the host clock is
monotonic). -/
inductive Step : State → State → Prop where
  | of_set_recovered {o : Origin} {l r : AccountId} {s s' : State}
      (h : set_recovered o l r s = .ok s') : Step s s'
  | of_as_recovered {o : Origin} {l : AccountId} {c : CallAction} {s s' : State}
      (h : as_recovered o l c s = .ok s') : Step s s'
  | of_create_recovery {o : Origin} {root : List Nat} {t d : Nat} {s s' : State}
      (h : create_recovery o root t d s = .ok s') : Step s s'
  | of_initiate_recovery {o : Origin} {l : AccountId} {s s' : State}
      (h : initiate_recovery o l s = .ok s') : Step s s'
  | of_approve_recovery {o : Origin} {l r : AccountId} {sig : Signature}
      {p : Proof} {s s' : State}
      (h : approve_recovery o l r sig p s = .ok s') : Step s s'
  | of_claim_recovery {o : Origin} {l : AccountId} {s s' : State}
      (h : claim_recovery o l s = .ok s') : Step s s'
  | of_new_block {s : State} {n : Nat} (h : s.block_number ≤ n) :
      Step s { s with block_number := n }

/-- States reachable from genesis by protocol steps. -/
inductive Reachable : State → Prop where
  | init : Reachable initState
  | step {s s' : State} (hs : Reachable s) (hstep : Step s s') : Reachable s'

/-! Storage-map laws. -/

theorem mapLookup_filter_ne {α β : Type} [DecidableEq α] (m : List (α × β)) (k k2 : α)
    (h : k2 ≠ k) :
    mapLookup (m.filter (fun p => decide (p.1 ≠ k))) k2 = mapLookup m k2 := by
  induction m with
  | nil => rfl
  | cons p rest ih =>
    obtain ⟨a, b⟩ := p
    by_cases hak : a = k
    · subst hak
      simp only [List.filter_cons, ne_eq, not_true_eq_false, decide_False,
        Bool.false_eq_true, if_false, ih, mapLookup]
      rw [if_neg h]
    · simp only [List.filter_cons, ne_eq, hak, not_false_eq_true, decide_True, if_true,
        mapLookup]
      by_cases hk2a : k2 = a
      · simp [hk2a]
      · rw [if_neg hk2a, if_neg hk2a]
        exact ih

theorem mapLookup_insert {α β : Type} [DecidableEq α] (m : List (α × β)) (k k2 : α) (v : β) :
    mapLookup (mapInsert m k v) k2 = if k2 = k then some v else mapLookup m k2 := by
  by_cases h : k2 = k
  · simp [mapLookup, mapInsert, h]
  · simp only [mapInsert, mapLookup, if_neg h]
    exact mapLookup_filter_ne m k k2 h

theorem mapLookup_insert_self {α β : Type} [DecidableEq α] (m : List (α × β)) (k : α)
    (v : β) : mapLookup (mapInsert m k v) k = some v := by
  simp [mapLookup_insert]

theorem mapLookup_insert_ne {α β : Type} [DecidableEq α] (m : List (α × β)) (k k2 : α)
    (v : β) (h : k2 ≠ k) : mapLookup (mapInsert m k v) k2 = mapLookup m k2 := by
  simp [mapLookup_insert, h]

theorem mapInsert_insert_self {α β : Type} [DecidableEq α] (m : List (α × β)) (k : α)
    (v v2 : β) : mapInsert (mapInsert m k v) k v2 = mapInsert m k v2 := by
  simp only [mapInsert, List.filter_cons, ne_eq, not_true_eq_false, decide_False,
    Bool.false_eq_true, if_false, List.cons.injEq, true_and]
  rw [List.filter_filter]
  apply List.filter_congr
  intro p _
  simp

/-! Laws of `binary_search` on sorted vectors. -/

theorem binary_search_err_not_mem {l : List AccountId} {x : AccountId} {p : Nat}
    (hs : l.Sorted (· < ·)) (h : binary_search l x = .error p) : x ∉ l := by
  induction l generalizing p with
  | nil => simp
  | cons y ys ih =>
    rw [List.sorted_cons] at hs
    simp only [binary_search] at h
    by_cases hyx : y < x
    · rw [if_pos hyx] at h
      cases hbs : binary_search ys x with
      | ok q => rw [hbs] at h; exact absurd h (by simp)
      | error q =>
        rw [hbs] at h
        have hx : x ∉ ys := ih hs.2 hbs
        simp only [List.mem_cons, not_or]
        exact ⟨fun he => absurd (he ▸ hyx) (lt_irrefl x), hx⟩
    · rw [if_neg hyx] at h
      by_cases hyx2 : y = x
      · rw [if_pos hyx2] at h; exact absurd h (by simp)
      · have hxy : x < y := lt_of_le_of_ne (le_of_not_lt hyx) (Ne.symm hyx2)
        simp only [List.mem_cons, not_or]
        refine ⟨fun he => hyx2 (he.symm), fun hmem => ?_⟩
        exact absurd (lt_trans hxy (hs.1 x hmem)) (lt_irrefl x)

theorem binary_search_mem_ok {l : List AccountId} {x : AccountId}
    (hs : l.Sorted (· < ·)) (hm : x ∈ l) : ∃ p, binary_search l x = .ok p := by
  induction l with
  | nil => simp at hm
  | cons y ys ih =>
    rw [List.sorted_cons] at hs
    simp only [binary_search]
    by_cases hyx : y < x
    · rw [if_pos hyx]
      have hx : x ∈ ys := by
        rcases List.mem_cons.mp hm with he | hmem
        · exact absurd (he ▸ hyx) (lt_irrefl x)
        · exact hmem
      obtain ⟨q, hq⟩ := ih hs.2 hx
      exact ⟨q + 1, by rw [hq]⟩
    · rw [if_neg hyx]
      by_cases hyx2 : y = x
      · exact ⟨0, by rw [if_pos hyx2]⟩
      · rcases List.mem_cons.mp hm with he | hmem
        · exact absurd he.symm hyx2
        · exact absurd (hs.1 x hmem) hyx

theorem binary_search_err_insert_perm {l : List AccountId} {x : AccountId} {p : Nat}
    (h : binary_search l x = .error p) : List.Perm (l.insertIdx p x) (x :: l) := by
  induction l generalizing p with
  | nil =>
    simp only [binary_search] at h
    cases h
    simp [List.insertIdx_zero]
  | cons y ys ih =>
    simp only [binary_search] at h
    by_cases hyx : y < x
    · rw [if_pos hyx] at h
      cases hbs : binary_search ys x with
      | ok q => rw [hbs] at h; exact absurd h (by simp)
      | error q =>
        rw [hbs] at h
        cases h
        rw [List.insertIdx_succ_cons]
        exact ((ih hbs).cons y).trans (List.Perm.swap x y ys)
    · rw [if_neg hyx] at h
      by_cases hyx2 : y = x
      · rw [if_pos hyx2] at h; exact absurd h (by simp)
      · rw [if_neg hyx2] at h
        cases h
        simp [List.insertIdx_zero]

theorem binary_search_err_insert_sorted {l : List AccountId} {x : AccountId} {p : Nat}
    (hs : l.Sorted (· < ·)) (h : binary_search l x = .error p) :
    (l.insertIdx p x).Sorted (· < ·) := by
  induction l generalizing p with
  | nil =>
    simp only [binary_search] at h
    cases h
    simp [List.insertIdx_zero]
  | cons y ys ih =>
    rw [List.sorted_cons] at hs
    simp only [binary_search] at h
    by_cases hyx : y < x
    · rw [if_pos hyx] at h
      cases hbs : binary_search ys x with
      | ok q => rw [hbs] at h; exact absurd h (by simp)
      | error q =>
        rw [hbs] at h
        cases h
        rw [List.insertIdx_succ_cons, List.sorted_cons]
        refine ⟨fun b hb => ?_, ih hs.2 hbs⟩
        have : b ∈ x :: ys := (binary_search_err_insert_perm hbs).mem_iff.mp hb
        rcases List.mem_cons.mp this with he | hmem
        · exact he ▸ hyx
        · exact hs.1 b hmem
    · rw [if_neg hyx] at h
      by_cases hyx2 : y = x
      · rw [if_pos hyx2] at h; exact absurd h (by simp)
      · rw [if_neg hyx2] at h
        cases h
        have hxy : x < y := lt_of_le_of_ne (le_of_not_lt hyx) (Ne.symm hyx2)
        rw [List.insertIdx_zero, List.sorted_cons]
        refine ⟨fun b hb => ?_, List.sorted_cons.mpr hs⟩
        rcases List.mem_cons.mp hb with he | hmem
        · exact he ▸ hxy
        · exact lt_trans hxy (hs.1 b hmem)

/-! Characterizations of the operations' successful outcomes. -/

theorem set_recovered_ok {o : Origin} {l r : AccountId} {s s' : State}
    (h : set_recovered o l r s = .ok s') :
    o = .root ∧ s' = { s with proxy := mapInsert s.proxy r l } := by
  cases o <;> simp only [set_recovered] at h <;> simp_all

theorem as_recovered_ok {o : Origin} {l : AccountId} {c : CallAction} {s s' : State}
    (h : as_recovered o l c s = .ok s') : s' = s := by
  cases o <;> simp only [as_recovered] at h
  case signed r =>
    cases hl : mapLookup s.proxy r <;> rw [hl] at h <;> dsimp only at h
    · simp at h
    case some t =>
      by_cases ht : t = l
      · rw [if_pos ht] at h
        cases hc : c.outcome (.signed l) <;> rw [hc] at h <;> dsimp only at h <;> simp_all
      · rw [if_neg ht] at h; simp at h
  all_goals simp_all

theorem create_recovery_ok {o : Origin} {root : List Nat} {t d : Nat} {s s' : State}
    (h : create_recovery o root t d s = .ok s') :
    ∃ who, o = .signed who ∧ mapLookup s.recoverable who = none ∧ 1 ≤ t ∧
      s' = { s with recoverable := mapInsert s.recoverable who ⟨d, root, t⟩ } := by
  cases o <;> simp only [create_recovery] at h
  case signed who =>
    by_cases hck : (mapLookup s.recoverable who).isSome
    · rw [if_pos hck] at h; simp at h
    · rw [if_neg hck] at h
      by_cases ht : 1 ≤ t
      · rw [if_pos ht] at h
        refine ⟨who, rfl, Option.not_isSome_iff_eq_none.mp hck, ht, ?_⟩
        simpa using h.symm
      · rw [if_neg ht] at h; simp at h
  all_goals simp_all

theorem initiate_recovery_ok {o : Origin} {l : AccountId} {s s' : State}
    (h : initiate_recovery o l s = .ok s') :
    ∃ rescuer, o = .signed rescuer ∧ (mapLookup s.recoverable l).isSome = true ∧
      mapLookup s.active_recoveries (l, rescuer) = none ∧
      s' = { s with active_recoveries := mapInsert s.active_recoveries (l, rescuer) ⟨s.block_number, []⟩ } := by
  cases o <;> simp only [initiate_recovery] at h
  case signed rescuer =>
    by_cases hck : (mapLookup s.recoverable l).isSome
    · rw [if_pos hck] at h
      by_cases hact : (mapLookup s.active_recoveries (l, rescuer)).isSome
      · rw [if_pos hact] at h; simp at h
      · rw [if_neg hact] at h
        refine ⟨rescuer, rfl, hck, Option.not_isSome_iff_eq_none.mp hact, ?_⟩
        simpa using h.symm
    · rw [if_neg hck] at h; simp at h
  all_goals simp_all

theorem approve_recovery_ok {o : Origin} {l r : AccountId} {sig : Signature} {p : Proof}
    {s s' : State} (h : approve_recovery o l r sig p s = .ok s') :
    ∃ cfg ar pos, mapLookup s.recoverable l = some cfg ∧
      p.value.length = 32 ∧
      sr25519_verify sig r p.value = true ∧
      p.validate cfg.friends_merkle_root = true ∧
      mapLookup s.active_recoveries (l, r) = some ar ∧
      binary_search ar.approved_friends p.value = .error pos ∧
      s' = { s with active_recoveries := mapInsert s.active_recoveries (l, r) ⟨ar.created, ar.approved_friends.insertIdx pos p.value⟩ } := by
  simp only [approve_recovery] at h
  cases hcfg : mapLookup s.recoverable l <;> rw [hcfg] at h <;> dsimp only at h
  · simp at h
  · rename_i cfg
    cases htp : to_public p.value <;> rw [htp] at h <;> dsimp only at h
    · simp at h
    · rename_i pk
      have hpk : pk = p.value ∧ p.value.length = 32 := by
        by_cases hlen : p.value.length = 32
        · simp [to_public, hlen] at htp; exact ⟨htp.symm, hlen⟩
        · simp [to_public, hlen] at htp
      obtain ⟨hpkv, hlen⟩ := hpk
      subst hpkv
      by_cases hv : sr25519_verify sig r p.value = true
      · rw [if_pos hv] at h
        by_cases hm : p.validate cfg.friends_merkle_root = true
        · rw [if_pos hm] at h
          cases hact : mapLookup s.active_recoveries (l, r) <;> rw [hact] at h <;>
            dsimp only at h
          · simp at h
          · rename_i ar
            cases hbs : binary_search ar.approved_friends p.value <;> rw [hbs] at h <;>
              dsimp only at h
            · rename_i pos
              exact ⟨cfg, ar, pos, rfl, hlen, hv, hm, rfl, hbs, by simpa using h.symm⟩
            · simp at h
        · rw [if_neg hm] at h; simp at h
      · rw [if_neg hv] at h; simp at h

theorem claim_recovery_ok {o : Origin} {l : AccountId} {s s' : State}
    (h : claim_recovery o l s = .ok s') :
    ∃ rescuer cfg ar, o = .signed rescuer ∧
      mapLookup s.recoverable l = some cfg ∧
      mapLookup s.active_recoveries (l, rescuer) = some ar ∧
      mapLookup s.proxy rescuer = none ∧
      ar.created + cfg.delay_period ≤ u64Max ∧
      ar.created + cfg.delay_period ≤ s.block_number ∧
      cfg.threshold ≤ ar.approved_friends.length ∧
      s' = { s with proxy := mapInsert s.proxy rescuer l, refs := inc_ref s.refs rescuer } := by
  cases o <;> simp only [claim_recovery] at h
  case signed rescuer =>
    cases hcfg : mapLookup s.recoverable l <;> rw [hcfg] at h <;> dsimp only at h
    · simp at h
    · rename_i cfg
      cases hact : mapLookup s.active_recoveries (l, rescuer) <;> rw [hact] at h <;>
        dsimp only at h
      · simp at h
      · rename_i ar
        by_cases hpx : (mapLookup s.proxy rescuer).isSome = true
        · rw [if_pos hpx] at h; simp at h
        · rw [if_neg hpx] at h
          cases hca : checked_add ar.created cfg.delay_period <;> rw [hca] at h <;>
            dsimp only at h
          · simp at h
          · rename_i n
            have hle : ar.created + cfg.delay_period ≤ u64Max ∧
                n = ar.created + cfg.delay_period := by
              by_cases hb : ar.created + cfg.delay_period ≤ u64Max
              · simp [checked_add, hb] at hca; exact ⟨hb, hca.symm⟩
              · simp [checked_add, hb] at hca
            obtain ⟨hbound, hn⟩ := hle
            subst hn
            by_cases hdelay : ar.created + cfg.delay_period ≤ s.block_number
            · rw [if_pos hdelay] at h
              by_cases hth : cfg.threshold ≤ ar.approved_friends.length
              · rw [if_pos hth] at h
                refine ⟨rescuer, cfg, ar, rfl, rfl, hact,
                  Option.not_isSome_iff_eq_none.mp (by simpa using hpx), hbound, hdelay,
                  hth, by simpa using h.symm⟩
              · rw [if_neg hth] at h; simp at h
            · rw [if_neg hdelay] at h; simp at h
  all_goals simp_all

/-! Errors leave the state exactly as it was. -/

theorem set_recovered_err {o : Origin} {l r : AccountId} {s : State} {e : Error} {s' : State}
    (h : set_recovered o l r s = .err e s') : s' = s := by
  unfold set_recovered at h
  repeat' split at h
  all_goals simp_all

theorem as_recovered_err {o : Origin} {l : AccountId} {c : CallAction} {s : State}
    {e : Error} {s' : State} (h : as_recovered o l c s = .err e s') : s' = s := by
  unfold as_recovered at h
  repeat' split at h
  all_goals simp_all

theorem create_recovery_err {o : Origin} {root : List Nat} {t d : Nat} {s : State}
    {e : Error} {s' : State} (h : create_recovery o root t d s = .err e s') : s' = s := by
  unfold create_recovery at h
  repeat' split at h
  all_goals simp_all

theorem initiate_recovery_err {o : Origin} {l : AccountId} {s : State} {e : Error}
    {s' : State} (h : initiate_recovery o l s = .err e s') : s' = s := by
  unfold initiate_recovery at h
  repeat' split at h
  all_goals simp_all

theorem approve_recovery_err {o : Origin} {l r : AccountId} {sig : Signature} {p : Proof}
    {s : State} {e : Error} {s' : State}
    (h : approve_recovery o l r sig p s = .err e s') : s' = s := by
  unfold approve_recovery at h
  dsimp only at h
  cases htp : to_public p.value <;> rw [htp] at h <;> (try dsimp only at h)
  all_goals repeat' split at h
  all_goals simp_all

theorem claim_recovery_err {o : Origin} {l : AccountId} {s : State} {e : Error}
    {s' : State} (h : claim_recovery o l s = .err e s') : s' = s := by
  unfold claim_recovery at h
  repeat' split at h
  all_goals simp_all

/-- Invariant of all reachable states: stored thresholds are at least 1,
stored approval lists are strictly sorted, and an active recovery always
references an existing config. -/
def ProtocolInv (s : State) : Prop :=
  (∀ a cfg, mapLookup s.recoverable a = some cfg → 1 ≤ cfg.threshold) ∧
  (∀ k ar, mapLookup s.active_recoveries k = some ar →
    ar.approved_friends.Sorted (· < ·)) ∧
  (∀ k ar, mapLookup s.active_recoveries k = some ar →
    (mapLookup s.recoverable k.1).isSome = true)

theorem reachable_inv {s : State} (h : Reachable s) : ProtocolInv s := by
  induction h with
  | init =>
    refine ⟨?_, ?_, ?_⟩ <;> intro k v h <;> simp [initState, mapLookup] at h
  | step hs hstep ih =>
    cases hstep with
    | of_set_recovered h =>
      obtain ⟨-, rfl⟩ := set_recovered_ok h
      exact ⟨ih.1, ih.2.1, ih.2.2⟩
    | of_as_recovered h =>
      rw [as_recovered_ok h]; exact ih
    | of_create_recovery h =>
      rename_i o root t d
      obtain ⟨who, -, hnone, ht, rfl⟩ := create_recovery_ok h
      refine ⟨?_, ih.2.1, ?_⟩
      · intro a cfg hl
        rw [mapLookup_insert] at hl
        by_cases ha : a = who
        · rw [if_pos ha] at hl; cases hl; exact ht
        · rw [if_neg ha] at hl; exact ih.1 a cfg hl
      · intro k ar hl
        have hk2 := ih.2.2 k ar hl
        rw [mapLookup_insert]
        by_cases hk : k.1 = who
        · simp [hk]
        · rw [if_neg hk]; exact hk2
    | of_initiate_recovery h =>
      rename_i o l
      obtain ⟨r, -, hrec, -, rfl⟩ := initiate_recovery_ok h
      refine ⟨ih.1, ?_, ?_⟩
      · intro k ar hl
        rw [mapLookup_insert] at hl
        by_cases hk : k = (l, r)
        · rw [if_pos hk] at hl; cases hl; exact List.sorted_nil
        · rw [if_neg hk] at hl; exact ih.2.1 k ar hl
      · intro k ar hl
        rw [mapLookup_insert] at hl
        by_cases hk : k = (l, r)
        · subst hk; exact hrec
        · rw [if_neg hk] at hl; exact ih.2.2 k ar hl
    | of_approve_recovery h =>
      rename_i o l r sig p
      obtain ⟨cfg, ar, pos, hcfg, hlen, hv, hm, hact, hbs, rfl⟩ := approve_recovery_ok h
      refine ⟨ih.1, ?_, ?_⟩
      · intro k ar2 hl
        rw [mapLookup_insert] at hl
        by_cases hk : k = (l, r)
        · rw [if_pos hk] at hl
          cases hl
          exact binary_search_err_insert_sorted (ih.2.1 (l, r) ar hact) hbs
        · rw [if_neg hk] at hl; exact ih.2.1 k ar2 hl
      · intro k ar2 hl
        rw [mapLookup_insert] at hl
        by_cases hk : k = (l, r)
        · subst hk; simp [hcfg]
        · rw [if_neg hk] at hl; exact ih.2.2 k ar2 hl
    | of_claim_recovery h =>
      obtain ⟨r, cfg, ar, -, -, -, -, -, -, -, rfl⟩ := claim_recovery_ok h
      exact ⟨ih.1, ih.2.1, ih.2.2⟩
    | of_new_block h =>
      exact ⟨ih.1, ih.2.1, ih.2.2⟩

/-! Concrete accounts and states used to exercise the theorems. -/

/-- Demo protected account. -/
def accA : AccountId := [1]

/-- Demo rescuer. -/
def accR : AccountId := [2]

/-- Demo friend 1: a 32-byte identity. -/
def accF1 : AccountId := List.replicate 32 7

/-- Demo friend 2: a 32-byte identity. -/
def accF2 : AccountId := List.replicate 32 8

/-- Demo merkle root commitment. -/
def demoRoot : List Nat := [9]

/-- Demo recovery config: delay 5 blocks, threshold 2. -/
def demoCfg : RecoveryConfig := ⟨5, demoRoot, 2⟩

/-- State after `accA` created `demoCfg`. -/
def sConfigured : State := ⟨[(accA, demoCfg)], [], [], [], 1⟩

/-- State after `accR` initiated recovery of `accA` at block 1. -/
def sInitiated : State := ⟨[(accA, demoCfg)], [((accA, accR), ⟨1, []⟩)], [], [], 1⟩

/-- State after friend `accF1` approved. -/
def sApprovedF1 : State := ⟨[(accA, demoCfg)], [((accA, accR), ⟨1, [accF1]⟩)], [], [], 1⟩

/-- State after friend `accF2` approved (instead of `accF1`). -/
def sApprovedF2 : State := ⟨[(accA, demoCfg)], [((accA, accR), ⟨1, [accF2]⟩)], [], [], 1⟩

/-- State after both friends approved (in either order). -/
def sApprovedBoth : State :=
  ⟨[(accA, demoCfg)], [((accA, accR), ⟨1, [accF1, accF2]⟩)], [], [], 1⟩

/-- Signature of friend `accF1` over rescuer `accR`. -/
def demoSig1 : Signature := ⟨accF1, accR⟩

/-- Signature of friend `accF2` over rescuer `accR`. -/
def demoSig2 : Signature := ⟨accF2, accR⟩

/-- Merkle proof for `accF1` against `demoRoot`. -/
def demoProof1 : Proof := ⟨accF1, demoRoot⟩

/-- Merkle proof for `accF2` against `demoRoot`. -/
def demoProof2 : Proof := ⟨accF2, demoRoot⟩

/-- A claim-ready state: threshold 1 met, delay 5 elapsed at block 6. -/
def sReady : State :=
  ⟨[(accA, ⟨5, demoRoot, 1⟩)], [((accA, accR), ⟨1, [accF1]⟩)], [], [], 6⟩

/-- The state after the successful claim from `sReady`. -/
def sClaimed : State :=
  ⟨[(accA, ⟨5, demoRoot, 1⟩)], [((accA, accR), ⟨1, [accF1]⟩)], [(accR, accA)],
    [(accR, 1)], 6⟩

theorem reachable_sConfigured : Reachable sConfigured :=
  Reachable.step Reachable.init
    (Step.of_create_recovery
      (show create_recovery (.signed accA) demoRoot 2 5 initState = .ok sConfigured by decide))

theorem reachable_sInitiated : Reachable sInitiated :=
  Reachable.step reachable_sConfigured
    (Step.of_initiate_recovery
      (show initiate_recovery (.signed accR) accA sConfigured = .ok sInitiated by decide))

/-- C1: with a config, an active entry for the pair, and no proxy held by the
rescuer, `claim_recovery` succeeds iff the current block number has reached
`created + delay_period` and the approval count has reached the threshold;
violating only the delay yields `DelayPeriod`, violating only the threshold
yields `UnderThreshold`, and an overflowing `created + delay_period` yields
`Overflow`; it never succeeds while either condition is violated. -/
theorem c1_claim_recovery_success_iff (s : State) (lost rescuer : AccountId)
    (cfg : RecoveryConfig) (ar : ActiveRecovery)
    (hc : mapLookup s.recoverable lost = some cfg)
    (ha : mapLookup s.active_recoveries (lost, rescuer) = some ar)
    (hp : mapLookup s.proxy rescuer = none) :
    (ar.created + cfg.delay_period ≤ u64Max →
      (((∃ s2, claim_recovery (.signed rescuer) lost s = .ok s2) ↔
        (ar.created + cfg.delay_period ≤ s.block_number ∧
         cfg.threshold ≤ ar.approved_friends.length)) ∧
       (s.block_number < ar.created + cfg.delay_period →
        cfg.threshold ≤ ar.approved_friends.length →
        claim_recovery (.signed rescuer) lost s = .err .DelayPeriod s) ∧
       (ar.created + cfg.delay_period ≤ s.block_number →
        ar.approved_friends.length < cfg.threshold →
        claim_recovery (.signed rescuer) lost s = .err .UnderThreshold s))) ∧
    (u64Max < ar.created + cfg.delay_period →
      claim_recovery (.signed rescuer) lost s = .err .Overflow s) := by
  constructor
  · intro hb
    have hca : checked_add ar.created cfg.delay_period =
        some (ar.created + cfg.delay_period) := by
      simp [checked_add, hb]
    refine ⟨⟨?_, ?_⟩, ?_, ?_⟩
    · rintro ⟨s2, hs2⟩
      obtain ⟨r2, cfg2, ar2, he, hc2, ha2, -, -, hd, hth, -⟩ := claim_recovery_ok hs2
      cases he
      rw [hc] at hc2
      cases hc2
      rw [ha] at ha2
      cases ha2
      exact ⟨hd, hth⟩
    · rintro ⟨hd, hth⟩
      have hs2 : claim_recovery (.signed rescuer) lost s =
          .ok { s with proxy := mapInsert s.proxy rescuer lost, refs := inc_ref s.refs rescuer } := by
        simp only [claim_recovery, hc, ha, hp, hca]
        simp [hd, hth]
      exact ⟨_, hs2⟩
    · intro hd hth
      simp only [claim_recovery, hc, ha, hp, hca]
      simp [Nat.not_le.mpr hd]
    · intro hd hth
      simp only [claim_recovery, hc, ha, hp, hca]
      simp [hd, Nat.not_le.mpr hth]
  · intro hb
    have hca : checked_add ar.created cfg.delay_period = none := by
      simp only [checked_add, if_neg (Nat.not_le.mpr hb)]
    simp only [claim_recovery, hc, ha, hp, hca]
    simp

/-- Witness for C1: in `sReady` (threshold 1 met, block 6 = created 1 + delay
5) the claim succeeds. -/
theorem c1_claim_recovery_success_iff_witness :
    ∃ s2, claim_recovery (.signed accR) accA sReady = .ok s2 :=
  ((c1_claim_recovery_success_iff sReady accA accR ⟨5, demoRoot, 1⟩ ⟨1, [accF1]⟩
    (by decide) (by decide) (by decide)).1 (by decide)).1.mpr (by decide)

/-- C2: a signature over a different rescuer identity than the one named in
the call fails `SignatureInvalid` with no state change, even with a valid
merkle proof; the signature check passes only when the signature covers
exactly the named rescuer (and the claimed approver's key). -/
theorem c2_signature_binding (s : State) (o : Origin) (lost rescuer : AccountId)
    (sig : Signature) (p : Proof) (cfg : RecoveryConfig)
    (hc : mapLookup s.recoverable lost = some cfg)
    (hl : p.value.length = 32) :
    (sig.message ≠ rescuer →
      approve_recovery o lost rescuer sig p s = .err .SignatureInvalid s) ∧
    (∀ s2, approve_recovery o lost rescuer sig p s = .ok s2 →
      sig.signer_public = p.value ∧ sig.message = rescuer) := by
  have htp : to_public p.value = some p.value := by simp [to_public, hl]
  constructor
  · intro hne
    have hv : sr25519_verify sig rescuer p.value = false := by
      simp only [sr25519_verify, decide_eq_false_iff_not]
      rintro ⟨-, hmsg⟩
      exact hne hmsg
    cases o <;> simp only [approve_recovery, hc, htp, hv] <;> simp
  · intro s2 hok
    obtain ⟨cfg2, ar, pos, -, -, hv, -, -, -, -⟩ := approve_recovery_ok hok
    simpa [sr25519_verify] using hv

/-- Witness for C2: friend `accF1` signed rescuer identity `accA`, but the
approval names rescuer `accR`; the call fails `SignatureInvalid`. -/
theorem c2_signature_binding_witness :
    approve_recovery (.signed accR) accA accR ⟨accF1, accA⟩ demoProof1 sInitiated =
      .err .SignatureInvalid sInitiated :=
  (c2_signature_binding sInitiated (.signed accR) accA accR ⟨accF1, accA⟩ demoProof1
    demoCfg (by decide) (by decide)).1 (by decide)

/-- C3 (code bug): the source binds `ensure_signed(origin)` to `_` without
the `?` operator, so the origin check's result is discarded:
`approve_recovery` proceeds — and here fully succeeds — under a root and
even an unsigned origin. -/
theorem c3_approve_recovery_ignores_origin :
    approve_recovery .root accA accR demoSig1 demoProof1 sInitiated = .ok sApprovedF1 ∧
    approve_recovery .nobody accA accR demoSig1 demoProof1 sInitiated = .ok sApprovedF1 := by
  exact ⟨by decide, by decide⟩

/-- C4 (code bug): `approver.as_ref().try_into().expect("")` panics when the
claimed approver identity in the proof is not exactly 32 bytes, so
`approve_recovery` is not total: with an empty approver identity it unwinds
instead of returning a declared error. -/
theorem c4_approve_recovery_panics_on_short_identity :
    approve_recovery (.signed accR) accA accR demoSig1 ⟨[], demoRoot⟩ sInitiated =
      .panic := by
  decide

/-- C5: every operation that returns an error leaves the entire state
exactly as it was, and the multi-write `claim_recovery` success path
installs the proxy entry and applies the rescuer reference-count increment
together, never one without the other. -/
theorem c5_errors_leave_state_unchanged :
    (∀ o l r s e s2, set_recovered o l r s = .err e s2 → s2 = s) ∧
    (∀ o l c s e s2, as_recovered o l c s = .err e s2 → s2 = s) ∧
    (∀ o fr t d s e s2, create_recovery o fr t d s = .err e s2 → s2 = s) ∧
    (∀ o l s e s2, initiate_recovery o l s = .err e s2 → s2 = s) ∧
    (∀ o l r sig p s e s2, approve_recovery o l r sig p s = .err e s2 → s2 = s) ∧
    (∀ o l s e s2, claim_recovery o l s = .err e s2 → s2 = s) ∧
    (∀ o l s s2, claim_recovery o l s = .ok s2 →
      ∃ rescuer, o = .signed rescuer ∧
        s2 = { s with proxy := mapInsert s.proxy rescuer l, refs := inc_ref s.refs rescuer }) := by
  refine ⟨?_, ?_, ?_, ?_, ?_, ?_, ?_⟩
  · intro o l r s e s2 h; exact set_recovered_err h
  · intro o l c s e s2 h; exact as_recovered_err h
  · intro o fr t d s e s2 h; exact create_recovery_err h
  · intro o l s e s2 h; exact initiate_recovery_err h
  · intro o l r sig p s e s2 h; exact approve_recovery_err h
  · intro o l s e s2 h; exact claim_recovery_err h
  · intro o l s s2 h
    obtain ⟨r, cfg, ar, he, -, -, -, -, -, -, hs2⟩ := claim_recovery_ok h
    exact ⟨r, he, hs2⟩

/-- Witness for C5: a failing claim from genesis leaves the state intact,
and the successful claim from `sReady` writes proxy and reference count
together. -/
theorem c5_errors_leave_state_unchanged_witness :
    initState = initState ∧
    ∃ rescuer, Origin.signed accR = .signed rescuer ∧
      sClaimed = { sReady with proxy := mapInsert sReady.proxy rescuer accA, refs := inc_ref sReady.refs rescuer } :=
  ⟨c5_errors_leave_state_unchanged.2.2.2.2.2.1 (.signed accR) accA initState
      .NotRecoverable initState (by decide),
    c5_errors_leave_state_unchanged.2.2.2.2.2.2 (.signed accR) accA sReady sClaimed
      (by decide)⟩

/-- C6 counterexample: in the reachable state `sConfigured` the account
`accA` already has a config, so `create_recovery` with threshold 0 fails
`AlreadyRecoverable` (the spec's `AlreadyConfigured`), not `ZeroThreshold`
(the spec's `InvalidThreshold`): the already-configured check runs first. -/
theorem c6_zero_threshold_error_counterexample :
    Reachable sConfigured ∧
    create_recovery (.signed accA) demoRoot 0 5 sConfigured =
      .err .AlreadyRecoverable sConfigured ∧
    Error.AlreadyRecoverable ≠ Error.ZeroThreshold :=
  ⟨reachable_sConfigured, by decide, by decide⟩

/-- C6 (amended): in every reachable state all stored configs have
threshold at least 1; `create_recovery` with threshold 0 from a signed
origin never succeeds and writes nothing, failing `AlreadyRecoverable` when
the caller already has a config and `ZeroThreshold` otherwise; and
`create_recovery` for an already-configured account always fails
`AlreadyRecoverable`, so configs are never overwritten. -/
theorem c6_threshold_invariant (s : State) (h : Reachable s) :
    (∀ a cfg, mapLookup s.recoverable a = some cfg → 1 ≤ cfg.threshold) ∧
    (∀ who root d, create_recovery (.signed who) root 0 d s =
      .err (if (mapLookup s.recoverable who).isSome then Error.AlreadyRecoverable
            else Error.ZeroThreshold) s) ∧
    (∀ who root t d cfg, mapLookup s.recoverable who = some cfg →
      create_recovery (.signed who) root t d s = .err .AlreadyRecoverable s) := by
  refine ⟨(reachable_inv h).1, ?_, ?_⟩
  · intro who root d
    by_cases hck : (mapLookup s.recoverable who).isSome
    · simp only [create_recovery, if_pos hck, if_pos (of_eq_true (eq_true hck))]
    · simp only [create_recovery, Bool.not_eq_true] at *
      simp [hck]
  · intro who root t d cfg hcfg
    simp only [create_recovery, hcfg]
    simp

/-- Witness for C6: at the reachable state `sConfigured`, threshold-0
creation fails `AlreadyRecoverable` for the configured `accA` and
`ZeroThreshold` for the unconfigured `accR`. -/
theorem c6_threshold_invariant_witness :
    create_recovery (.signed accA) demoRoot 0 7 sConfigured =
      .err .AlreadyRecoverable sConfigured ∧
    create_recovery (.signed accR) demoRoot 0 7 sConfigured =
      .err .ZeroThreshold sConfigured := by
  have h := c6_threshold_invariant sConfigured reachable_sConfigured
  constructor
  · have h2 := h.2.1 accA demoRoot 7
    rw [h2]; decide
  · have h2 := h.2.1 accR demoRoot 7
    rw [h2]; decide

/-- Two sorted-position inserts of distinct absent elements commute. -/
theorem bsInsert_comm {l : List AccountId} {x y : AccountId} {px py qy qx : Nat}
    (hs : l.Sorted (· < ·))
    (hx : binary_search l x = .error px)
    (hy2 : binary_search (List.insertIdx px x l) y = .error py)
    (hy : binary_search l y = .error qy)
    (hx2 : binary_search (List.insertIdx qy y l) x = .error qx) :
    List.insertIdx py y (List.insertIdx px x l) =
      List.insertIdx qx x (List.insertIdx qy y l) := by
  have hsx := binary_search_err_insert_sorted hs hx
  have hsy := binary_search_err_insert_sorted hs hy
  have hsxy := binary_search_err_insert_sorted hsx hy2
  have hsyx := binary_search_err_insert_sorted hsy hx2
  have p1 : List.Perm (List.insertIdx py y (List.insertIdx px x l)) (y :: x :: l) :=
    (binary_search_err_insert_perm hy2).trans ((binary_search_err_insert_perm hx).cons y)
  have p2 : List.Perm (List.insertIdx qx x (List.insertIdx qy y l)) (x :: y :: l) :=
    (binary_search_err_insert_perm hx2).trans ((binary_search_err_insert_perm hy).cons x)
  have p3 : List.Perm (List.insertIdx py y (List.insertIdx px x l))
      (List.insertIdx qx x (List.insertIdx qy y l)) :=
    (p1.trans (List.Perm.swap x y l)).trans p2.symm
  exact List.eq_of_perm_of_sorted p3 hsxy.le_of_lt hsyx.le_of_lt

/-- C7: approvals are order-independent (A then B stores the same ledger
entry as B then A, starting from the same sorted entry), approving an
already-present friend always fails `AlreadyApproved` with no state
change, and in every reachable state every stored approval list is
strictly sorted (hence duplicate-free). -/
theorem c7_approval_order_independent_dedup :
    (∀ (s s1 s2 t1 t2 : State) (oa ob oc od : Origin) (lost rescuer : AccountId)
       (sigA sigB : Signature) (pA pB : Proof) (ar : ActiveRecovery),
       mapLookup s.active_recoveries (lost, rescuer) = some ar →
       ar.approved_friends.Sorted (· < ·) →
       approve_recovery oa lost rescuer sigA pA s = .ok s1 →
       approve_recovery ob lost rescuer sigB pB s1 = .ok s2 →
       approve_recovery oc lost rescuer sigB pB s = .ok t1 →
       approve_recovery od lost rescuer sigA pA t1 = .ok t2 →
       s2 = t2) ∧
    (∀ (s : State) (o : Origin) (lost rescuer : AccountId) (sig : Signature) (p : Proof)
       (cfg : RecoveryConfig) (ar : ActiveRecovery),
       mapLookup s.recoverable lost = some cfg →
       p.value.length = 32 →
       sr25519_verify sig rescuer p.value = true →
       p.validate cfg.friends_merkle_root = true →
       mapLookup s.active_recoveries (lost, rescuer) = some ar →
       ar.approved_friends.Sorted (· < ·) →
       p.value ∈ ar.approved_friends →
       approve_recovery o lost rescuer sig p s = .err .AlreadyApproved s) ∧
    (∀ s, Reachable s → ∀ k ar, mapLookup s.active_recoveries k = some ar →
       ar.approved_friends.Sorted (· < ·)) := by
  refine ⟨?_, ?_, ?_⟩
  · intro s s1 s2 t1 t2 oa ob oc od lost rescuer sigA sigB pA pB ar har hsort h1 h2 h3 h4
    obtain ⟨cfgA, arA, posA, hcfgA, -, -, -, hactA, hbsA, rfl⟩ := approve_recovery_ok h1
    rw [har] at hactA
    cases hactA
    obtain ⟨cfgB, arB, posB, hcfgB, -, -, -, hactB, hbsB, rfl⟩ := approve_recovery_ok h2
    rw [mapLookup_insert_self] at hactB
    cases hactB
    obtain ⟨cfgC, arC, posC, hcfgC, -, -, -, hactC, hbsC, rfl⟩ := approve_recovery_ok h3
    rw [har] at hactC
    cases hactC
    obtain ⟨cfgD, arD, posD, hcfgD, -, -, -, hactD, hbsD, rfl⟩ := approve_recovery_ok h4
    rw [mapLookup_insert_self] at hactD
    cases hactD
    dsimp only at hbsB hbsD ⊢
    rw [mapInsert_insert_self, mapInsert_insert_self]
    have hlist := bsInsert_comm hsort hbsA hbsB hbsC hbsD
    rw [hlist]
  · intro s o lost rescuer sig p cfg ar hc hl hv hm hact hsort hmem
    obtain ⟨pos, hpos⟩ := binary_search_mem_ok hsort hmem
    have htp : to_public p.value = some p.value := by simp [to_public, hl]
    cases o <;> simp only [approve_recovery, hc, htp, hv, hm, hact, hpos] <;> simp
  · intro s hr k ar hl
    exact (reachable_inv hr).2.1 k ar hl

/-- Witness for C7: approving `accF1` then `accF2` from `sInitiated` and
the reverse order both store `[accF1, accF2]`, and re-approving `accF1` in
`sApprovedF1` fails `AlreadyApproved`. -/
theorem c7_approval_order_independent_dedup_witness :
    sApprovedBoth = sApprovedBoth ∧
    approve_recovery (.signed accR) accA accR demoSig1 demoProof1 sApprovedF1 =
      .err .AlreadyApproved sApprovedF1 :=
  ⟨c7_approval_order_independent_dedup.1 sInitiated sApprovedF1 sApprovedBoth
      sApprovedF2 sApprovedBoth (.signed accR) (.signed accR) (.signed accR)
      (.signed accR) accA accR demoSig1 demoSig2 demoProof1 demoProof2 ⟨1, []⟩
      (by decide) (by decide) (by decide) (by decide) (by decide) (by decide),
    c7_approval_order_independent_dedup.2.1 sApprovedF1 (.signed accR) accA accR
      demoSig1 demoProof1 demoCfg ⟨1, [accF1]⟩ (by decide) (by decide) (by decide)
      (by decide) (by decide) (by decide) (by decide)⟩

/-- C8: in any reachable state, a second `initiate_recovery` for a pair
that already has an active entry fails `AlreadyStarted` and leaves the
whole state (hence the existing entry) unchanged; and with no config for
the protected account it fails `NotRecoverable` and creates nothing. -/
theorem c8_initiate_recovery_idempotent_rejecting (s : State) (lost rescuer : AccountId)
    (h : Reachable s) :
    ((mapLookup s.active_recoveries (lost, rescuer)).isSome = true →
      initiate_recovery (.signed rescuer) lost s = .err .AlreadyStarted s) ∧
    (mapLookup s.recoverable lost = none →
      initiate_recovery (.signed rescuer) lost s = .err .NotRecoverable s) := by
  constructor
  · intro hact
    have hcfg : (mapLookup s.recoverable lost).isSome = true := by
      obtain ⟨ar, har⟩ := Option.isSome_iff_exists.mp hact
      exact (reachable_inv h).2.2 (lost, rescuer) ar har
    simp only [initiate_recovery, hcfg, hact]
    simp
  · intro hcfg
    simp only [initiate_recovery, hcfg]
    simp

/-- Witness for C8: re-initiating the `(accA, accR)` recovery in the
reachable state `sInitiated` fails `AlreadyStarted`, and initiating from
genesis fails `NotRecoverable`. -/
theorem c8_initiate_recovery_idempotent_rejecting_witness :
    initiate_recovery (.signed accR) accA sInitiated = .err .AlreadyStarted sInitiated ∧
    initiate_recovery (.signed accR) accA initState = .err .NotRecoverable initState :=
  ⟨(c8_initiate_recovery_idempotent_rejecting sInitiated accA accR
      reachable_sInitiated).1 (by decide),
    (c8_initiate_recovery_idempotent_rejecting initState accA accR Reachable.init).2
      (by decide)⟩

/-- C9: `as_recovered` fails `NotAllowed` when the caller holds no proxy
entry or when the stored target differs from the named protected account;
with a matching proxy entry it dispatches the action under the signed
identity of the protected account and returns its outcome unchanged. -/
theorem c9_as_recovered_forwarding (s : State) (rescuer lost : AccountId)
    (c : CallAction) :
    (mapLookup s.proxy rescuer = none →
      as_recovered (.signed rescuer) lost c s = .err .NotAllowed s) ∧
    (∀ target, mapLookup s.proxy rescuer = some target → target ≠ lost →
      as_recovered (.signed rescuer) lost c s = .err .NotAllowed s) ∧
    (mapLookup s.proxy rescuer = some lost →
      (c.outcome (.signed lost) = none → as_recovered (.signed rescuer) lost c s = .ok s) ∧
      (∀ e, c.outcome (.signed lost) = some e →
        as_recovered (.signed rescuer) lost c s = .err e s)) := by
  refine ⟨?_, ?_, ?_⟩
  · intro hp
    simp only [as_recovered, hp]
  · intro target hp hne
    simp only [as_recovered, hp]
    simp [hne]
  · intro hp
    constructor
    · intro hc
      simp only [as_recovered, hp, hc]
      simp
    · intro e hc
      simp only [as_recovered, hp, hc]
      simp

/-- An always-succeeding forwarded action. -/
def demoCall : CallAction := ⟨fun _ => none⟩

/-- Witness for C9: in `sClaimed` the rescuer's proxy targets `accA`, so
forwarding succeeds and returns the action's outcome; from genesis it
fails `NotAllowed`. -/
theorem c9_as_recovered_forwarding_witness :
    as_recovered (.signed accR) accA demoCall sClaimed = .ok sClaimed ∧
    as_recovered (.signed accR) accA demoCall initState = .err .NotAllowed initState :=
  ⟨((c9_as_recovered_forwarding sClaimed accR accA demoCall).2.2 (by decide)).1 rfl,
    (c9_as_recovered_forwarding initState accR accA demoCall).1 (by decide)⟩

/-- C10: root-origin `set_recovered` performs no `AlreadyProxied` check: it
succeeds for every state, overwriting any existing proxy entry of the
rescuer so that the rescuer now maps to the new protected account — unlike
`claim_recovery`, which fails `AlreadyProxied` whenever the rescuer already
holds any proxy entry. -/
theorem c10_set_recovered_overwrites (s : State) (lost rescuer : AccountId) :
    set_recovered .root lost rescuer s =
      .ok { s with proxy := mapInsert s.proxy rescuer lost } ∧
    mapLookup (mapInsert s.proxy rescuer lost) rescuer = some lost ∧
    (∀ cfg ar, mapLookup s.recoverable lost = some cfg →
      mapLookup s.active_recoveries (lost, rescuer) = some ar →
      (mapLookup s.proxy rescuer).isSome = true →
      claim_recovery (.signed rescuer) lost s = .err .AlreadyProxied s) := by
  refine ⟨rfl, mapLookup_insert_self s.proxy rescuer lost, ?_⟩
  intro cfg ar hcfg hact hpx
  simp only [claim_recovery, hcfg, hact, hpx]
  simp

/-- State where rescuer `accR` already holds a proxy for `accF1` while a
claim-ready recovery of `accA` exists. -/
def sPrior : State :=
  ⟨[(accA, demoCfg)], [((accA, accR), ⟨1, []⟩)], [(accR, accF1)], [], 1⟩

/-- Witness for C10: with `accR` already proxying `accF1`, root
`set_recovered` still succeeds and repoints `accR` to `accA`, while
`claim_recovery` fails `AlreadyProxied`. -/
theorem c10_set_recovered_overwrites_witness :
    set_recovered .root accA accR sPrior =
      .ok { sPrior with proxy := mapInsert sPrior.proxy accR accA } ∧
    mapLookup (mapInsert sPrior.proxy accR accA) accR = some accA ∧
    claim_recovery (.signed accR) accA sPrior = .err .AlreadyProxied sPrior :=
  ⟨(c10_set_recovered_overwrites sPrior accA accR).1,
    (c10_set_recovered_overwrites sPrior accA accR).2.1,
    (c10_set_recovered_overwrites sPrior accA accR).2.2 demoCfg ⟨1, []⟩ (by decide)
      (by decide) (by decide)⟩
